import Mathlib

/-!
# Shallow embedding of `interrogate` (src/main.rs)

A terminal party game: players register nicknames, then for 3 rounds each
player writes a question, answers the question assigned to them by a random
rotation, and guesses who authored each answer, scoring a point per correct
guess.

Modelling conventions:
* `PlayerID` (Rust `u8`) is modelled as `Nat`; `parse_u8` keeps the `< 256`
  range check of Rust's `u8::from_str`.
* The `HashMap<PlayerID, Player>` is modelled as a `List Player` keyed by
  `Player.id` (iteration order is the list order; the real map's order is
  arbitrary, so theorems never depend on a particular order).
* Standard input is a total stream `stdin : Nat → String` together with a
  cursor `pos : Nat` (Rust's `read_line` never fails: at EOF it yields `""`).
  Each `wait_for_enter`/`read_line` advances the cursor by one.
* `SliceRandom::shuffle` results are passed in as explicit arguments
  (`order`, `RoundRng`); theorems hypothesise they are permutations.
* A Rust `.unwrap()` panic is modelled by returning `none`.
* The unbounded guess-validation `loop` takes a fuel parameter; exhausted
  fuel (`none`) models an input stream that never supplies a valid guess.
-/

/-- `struct Question { author, prompt }`. -/
structure Question where
  author : Nat
  prompt : String
deriving Repr, DecidableEq

/-- `struct AnsweredQuestion { question, answered_by, answer }`. -/
structure AnsweredQuestion where
  question : Question
  answered_by : Nat
  answer : String
deriving Repr, DecidableEq

/-- `struct Player { id, nickname, score, question_pending_answer }`. -/
structure Player where
  id : Nat
  nickname : String
  score : Nat
  question_pending_answer : Option Question
deriving Repr, DecidableEq

/-- `Player::new(id, nickname)`. -/
def Player.new (id : Nat) (nickname : String) : Player :=
  { id := id, nickname := nickname, score := 0, question_pending_answer := none }

/-- `Question::respond(self, answered_by, answer)`. -/
def Question.respond (q : Question) (answered_by : Nat) (answer : String) :
    AnsweredQuestion :=
  { question := q, answered_by := answered_by, answer := answer }

/-- `struct Game { next_player_id, players }`; the `HashMap` is a list keyed
by `Player.id`. -/
structure Game where
  next_player_id : Nat
  players : List Player
deriving Repr, DecidableEq

/-- `Game::new()`. -/
def Game.new : Game := { next_player_id := 0, players := [] }

/-- `self.players.get(&i)` — `HashMap` lookup by id. -/
def findPlayer (ps : List Player) (i : Nat) : Option Player :=
  ps.find? (fun p => p.id = i)

/-- `Game::player_ids`: `self.players.keys().cloned().collect()`. -/
def Game.player_ids (g : Game) : List Nat :=
  g.players.map Player.id

/-- `Game::add_new_player(nickname)`. -/
def Game.add_new_player (g : Game) (nickname : String) : Game :=
  { next_player_id := g.next_player_id + 1,
    players := g.players ++ [Player.new g.next_player_id nickname] }

/-- The pair list built by the loop body of `generate_player_pairs`:
`pairs.push((asker, responder)); asker = responder;` over `order`. -/
def pairsFrom : Nat → List Nat → List (Nat × Nat)
  | _, [] => []
  | asker, responder :: rest => (asker, responder) :: pairsFrom responder rest

/-- `Game::generate_player_pairs`, after the shuffle: `order` is the shuffled
id vector; `*order.last().unwrap()` panics (`none`) on an empty roster. -/
def generate_player_pairs (order : List Nat) : Option (List (Nat × Nat)) :=
  match order.getLast? with
  | none => none
  | some last => some (pairsFrom last order)

/-- `pairs.get(&p)` — lookup of the responder assigned to asker `p` in the
`HashMap` collected from the pair list. -/
def lookupPair (pairs : List (Nat × Nat)) (p : Nat) : Option Nat :=
  (pairs.find? (fun pr => pr.1 = p)).map (·.2)

/-- `self.players.get_mut(&i).unwrap().question_pending_answer = Some q`
(`none` models the `unwrap` panic when `i` is absent). -/
def setPending (ps : List Player) (i : Nat) (q : Question) :
    Option (List Player) :=
  if ps.any (fun p => p.id = i) then
    some (ps.map (fun p =>
      if p.id = i then { p with question_pending_answer := some q } else p))
  else none

/-- `question_pending_answer.take()`: clears the pending slot of player `i`. -/
def clearPending (ps : List Player) (i : Nat) : List Player :=
  ps.map (fun p =>
    if p.id = i then { p with question_pending_answer := none } else p)

/-- `Game::summon_player(p)`: looks the player up (`unwrap` panic modelled by
`none`) and consumes one line (`wait_for_enter`). Returns the new cursor. -/
def summon_player (g : Game) (p : Nat) (pos : Nat) : Option Nat :=
  (findPlayer g.players p).map (fun _ => pos + 1)

/-- `Game::input_question(author)`: reads one line as the prompt. -/
def input_question (author : Nat) (stdin : Nat → String) (pos : Nat) :
    Question × Nat :=
  (⟨author, stdin pos⟩, pos + 1)

/-- The `for p in self.player_ids()` loop of `Game::pend_questions`. -/
def pendQuestionsGo (pairs : List (Nat × Nat)) (stdin : Nat → String) :
    List Nat → Game → Nat → Option (Game × Nat)
  | [], g, pos => some (g, pos)
  | p :: rest, g, pos =>
    match summon_player g p pos with
    | none => none
    | some pos1 =>
      let (question, pos2) := input_question p stdin pos1
      match lookupPair pairs p with
      | none => none
      | some responder =>
        match setPending g.players responder question with
        | none => none
        | some ps' => pendQuestionsGo pairs stdin rest { g with players := ps' } pos2

/-- `Game::pend_questions`, with the shuffled `order` made explicit; collects
the generated pairs and assigns each author's question to their responder. -/
def pend_questions (g : Game) (order : List Nat) (stdin : Nat → String)
    (pos : Nat) : Option (Game × Nat) :=
  match generate_player_pairs order with
  | none => none
  | some pairs => pendQuestionsGo pairs stdin g.player_ids g pos

/-- The `for p in self.player_ids()` loop of `Game::input_answers`: summon,
`take()` the pending question (`unwrap` panic when absent), read the answer,
and record who supplied it. -/
def inputAnswersGo (stdin : Nat → String) :
    List Nat → Game → Nat → Option (List AnsweredQuestion × Game × Nat)
  | [], g, pos => some ([], g, pos)
  | p :: rest, g, pos =>
    match findPlayer g.players p with
    | none => none
    | some pl =>
      match pl.question_pending_answer with
      | none => none
      | some pending_q =>
        let g' := { g with players := clearPending g.players p }
        let pos1 := pos + 1
        let response := stdin pos1
        let pos2 := pos1 + 1
        match inputAnswersGo stdin rest g' pos2 with
        | none => none
        | some (answers, g'', posEnd) =>
          some (pending_q.respond p response :: answers, g'', posEnd)

/-- `Game::input_answers`. -/
def input_answers (g : Game) (stdin : Nat → String) (pos : Nat) :
    Option (List AnsweredQuestion × Game × Nat) :=
  inputAnswersGo stdin g.player_ids g pos

/-- Rust `u8::from_str` on the guess line: an optional leading `+` (a `-`
is not accepted for unsigned types), then at least one ASCII digit, with the
value in `u8` range; anything else is a parse error. -/
def parse_u8 (s : String) : Option Nat :=
  match s.data with
  | [] => none
  | c :: cs =>
    let digits := if c = '+' then cs else c :: cs
    if digits.isEmpty then none
    else if digits.all Char.isDigit then
      let n := digits.foldl (fun acc d => acc * 10 + (d.toNat - '0'.toNat)) 0
      if n < 256 then some n else none
    else none

/-- The `loop` in `Game::do_guesses` validating one player's guess: parse,
require an existing id, forbid guessing oneself; otherwise print an error and
re-prompt. `fuel` bounds the number of prompts. -/
def guessLoop (g : Game) (selfId : Nat) (stdin : Nat → String) :
    Nat → Nat → Option (Nat × Nat)
  | 0, _ => none
  | fuel + 1, pos =>
    match parse_u8 (stdin pos) with
    | some id =>
      if g.players.any (fun pl => pl.id = id) then
        if id ≠ selfId then some (id, pos + 1)
        else guessLoop g selfId stdin fuel (pos + 1)
      else guessLoop g selfId stdin fuel (pos + 1)
    | none => guessLoop g selfId stdin fuel (pos + 1)

/-- The `for player in ps` loop of `Game::do_guesses` collecting the
`(guesser, guess)` pairs for one `AnsweredQuestion`; `order` is the shuffled
player order. The answerer gets the inert placeholder prompt (two consumed
lines, no guess); every other player goes through `guessLoop`. -/
def collectGuesses (fuel : Nat) (g : Game) (ab : Nat) (stdin : Nat → String) :
    List Nat → Nat → Option (List (Nat × Nat) × Nat)
  | [], pos => some ([], pos)
  | p :: rest, pos =>
    let pos1 := pos + 1
    if p = ab then
      collectGuesses fuel g ab stdin rest (pos1 + 1)
    else
      match guessLoop g p stdin fuel pos1 with
      | none => none
      | some (guess, pos2) =>
        match collectGuesses fuel g ab stdin rest pos2 with
        | none => none
        | some (gs, posEnd) => some ((p, guess) :: gs, posEnd)

/-- Resolution of a single `(guesser, guess)` pair:
`players.get_mut(&guesser).unwrap()` then `score += 1` exactly when the guess
names the true answerer. -/
def applyGuess (ps : List Player) (ab guesser guessed : Nat) :
    Option (List Player) :=
  if ps.any (fun pl => pl.id = guesser) then
    if guessed = ab then
      some (ps.map (fun pl =>
        if pl.id = guesser then { pl with score := pl.score + 1 } else pl))
    else some ps
  else none

/-- Observation: the score of the player with id `i` (the first `HashMap`
entry with that key). -/
def scoreOf (ps : List Player) (i : Nat) : Option Nat :=
  (findPlayer ps i).map Player.score

/-- The `for (guesser_id, guessed_id) in guesses` scoring loop. -/
def applyGuesses : List Player → Nat → List (Nat × Nat) → Option (List Player)
  | ps, _, [] => some ps
  | ps, ab, (guesser, guessed) :: rest =>
    match applyGuess ps ab guesser guessed with
    | none => none
    | some ps' => applyGuesses ps' ab rest

/-- One iteration of the outer `for answered_q in answers` loop of
`Game::do_guesses`: collect everyone's guesses, reveal the answerer
(`get(..).unwrap()`), and apply the scoring. -/
def doGuessesOne (fuel : Nat) (g : Game) (aq : AnsweredQuestion)
    (order : List Nat) (stdin : Nat → String) (pos : Nat) :
    Option (Game × Nat) :=
  match collectGuesses fuel g aq.answered_by stdin order pos with
  | none => none
  | some (guesses, pos1) =>
    let pos2 := pos1 + 1
    match findPlayer g.players aq.answered_by with
    | none => none
    | some _ =>
      match applyGuesses g.players aq.answered_by guesses with
      | none => none
      | some ps' => some ({ g with players := ps' }, pos2 + 1)

/-- `Game::do_guesses` over the round's answers; `orders k` is the shuffled
player order used for the `k`-th answered question of this call. -/
def do_guesses (fuel : Nat) (orders : Nat → List Nat) (stdin : Nat → String) :
    List AnsweredQuestion → Nat → Game → Nat → Option (Game × Nat)
  | [], _, g, pos => some (g, pos)
  | aq :: rest, k, g, pos =>
    match doGuessesOne fuel g aq (orders k) stdin pos with
    | none => none
    | some (g', pos') => do_guesses fuel orders stdin rest (k + 1) g' pos'

/-- `Game::show_final_scores`: stable sort by descending score; the
`max_by(..).unwrap()` over nicknames panics (`none`) on an empty roster. The
displayed lines are modelled as `(nickname, score)` pairs. -/
def show_final_scores (g : Game) : Option (List (String × Nat)) :=
  let sorted := g.players.mergeSort (fun a b => b.score ≤ a.score)
  if g.players.isEmpty then none
  else some (sorted.map (fun p => (p.nickname, p.score)))

/-- The random choices of one round: the shuffled id order handed to
`generate_player_pairs`, and the shuffled player order for each answered
question of the guessing phase. -/
structure RoundRng where
  order : List Nat
  guessOrders : Nat → List Nat

/-- The body of the `for round in 1..=3` loop of `Game::start`: press enter,
pend questions (pairing + questioning), press enter, collect answers, guess. -/
def do_round (fuel : Nat) (g : Game) (rng : RoundRng) (stdin : Nat → String)
    (pos : Nat) : Option (Game × Nat) :=
  let pos0 := pos + 1
  match pend_questions g rng.order stdin pos0 with
  | none => none
  | some (g1, pos1) =>
    let pos1' := pos1 + 1
    match input_answers g1 stdin pos1' with
    | none => none
    | some (answers, g2, pos2) =>
      do_guesses fuel rng.guessOrders stdin answers 0 g2 pos2

/-- The `for round in 1..=3` loop. -/
def runRounds (fuel : Nat) (rngs : Nat → RoundRng) (stdin : Nat → String) :
    List Nat → Game → Nat → Option (Game × Nat)
  | [], g, pos => some (g, pos)
  | r :: rest, g, pos =>
    match do_round fuel g (rngs r) stdin pos with
    | none => none
    | some (g', pos') => runRounds fuel rngs stdin rest g' pos'

/-- `Game::start`: three rounds, then the final scores. -/
def start (fuel : Nat) (g : Game) (rngs : Nat → RoundRng)
    (stdin : Nat → String) (pos : Nat) :
    Option (List (String × Nat) × Nat) :=
  match runRounds fuel rngs stdin [1, 2, 3] g pos with
  | none => none
  | some (g', pos') =>
    match show_final_scores g' with
    | none => none
    | some ranking => some (ranking, pos')

/-- The roster-entry loop of `main`: read nicknames until an empty line.
`fuel` bounds the number of reads (the Rust loop is unbounded). -/
def roster_loop (stdin : Nat → String) : Nat → Game → Nat → Option (Game × Nat)
  | 0, _, _ => none
  | fuel + 1, g, pos =>
    let line := stdin pos
    if line = "" then some (g, pos + 1)
    else roster_loop stdin fuel (g.add_new_player line) (pos + 1)

/-! Concrete instances used by the witness theorems. -/

/-- The spec's example roster `["Joe","Bob","Fred"]` with ids `0,1,2`. -/
def gEx : Game :=
  ((Game.new.add_new_player "Joe").add_new_player "Bob").add_new_player "Fred"

/-- The spec's invalid-guess input sequence for guesser `1`, followed by a
valid guess `"0"`. -/
def stdinEx : Nat → String :=
  fun k => (["x", "99", "1", "0"].getD k "")

/-- A two-player roster used for the end-to-end run. -/
def gW : Game := (Game.new.add_new_player "A").add_new_player "B"

/-- An input stream driving a full three-round game of `gW`: each round
consumes 22 lines, with valid guesses at offsets 13 and 17. -/
def stdinW : Nat → String :=
  fun k => if k % 22 = 13 then "0" else if k % 22 = 17 then "1" else ""

/-- Fixed random choices for the end-to-end run of `gW`. -/
def rngsW : Nat → RoundRng :=
  fun _ => { order := [0, 1], guessOrders := fun _ => [0, 1] }

/-- Inputs for a guess-collection pass over `gEx` with answerer `1`: players
`0` and `2` each press enter and then guess `"1"`; the answerer's two lines
are blank. -/
def stdinC : Nat → String :=
  fun k => (["", "1", "", "", "", "1"].getD k "")

/-- A two-player state in which both pending questions are set (as after the
question phase with pairing `0 ↔ 1`). -/
def gPend : Game :=
  { next_player_id := 2,
    players :=
      [{ id := 0, nickname := "A", score := 0,
         question_pending_answer := some ⟨1, "q1"⟩ },
       { id := 1, nickname := "B", score := 0,
         question_pending_answer := some ⟨0, "q0"⟩ }] }

/-- The answers `input_answers` collects from `gPend` when every line of
input is `"ans"`. -/
def ansW : List AnsweredQuestion :=
  [⟨⟨1, "q1"⟩, 0, "ans"⟩, ⟨⟨0, "q0"⟩, 1, "ans"⟩]

/-- `gPend` after the answer phase: both pending slots cleared. -/
def gPendCleared : Game :=
  { next_player_id := 2,
    players :=
      [{ id := 0, nickname := "A", score := 0,
         question_pending_answer := none },
       { id := 1, nickname := "B", score := 0,
         question_pending_answer := none }] }

/-- A three-player state with distinct accumulated scores. -/
def gScored : Game :=
  { next_player_id := 3,
    players :=
      [{ id := 0, nickname := "Joe", score := 1,
         question_pending_answer := none },
       { id := 1, nickname := "Bob", score := 3,
         question_pending_answer := none },
       { id := 2, nickname := "Fred", score := 2,
         question_pending_answer := none }] }

/-! ### Helper lemmas about the pairing rotation -/

lemma map_snd_pairsFrom (a : Nat) (l : List Nat) :
    (pairsFrom a l).map Prod.snd = l := by
  induction l generalizing a with
  | nil => rfl
  | cons r rest ih => simp [pairsFrom, ih]

lemma map_fst_pairsFrom (a : Nat) (l : List Nat) (h : l ≠ []) :
    (pairsFrom a l).map Prod.fst = a :: l.dropLast := by
  induction l generalizing a with
  | nil => exact absurd rfl h
  | cons r rest ih =>
    cases rest with
    | nil => rfl
    | cons r2 rest2 =>
      have step : pairsFrom a (r :: r2 :: rest2) = (a, r) :: pairsFrom r (r2 :: rest2) := rfl
      rw [step, List.map_cons, ih r (by simp)]
      rfl

lemma pairsFrom_eq_zip (a : Nat) (l : List Nat) :
    pairsFrom a l = (a :: l).zip l := by
  induction l generalizing a with
  | nil => rfl
  | cons r rest ih => simp [pairsFrom, List.zip, List.zipWith, ih r]

lemma pairsFrom_no_fixpoint (a : Nat) (l : List Nat) (h : (a :: l).Nodup) :
    ∀ pr ∈ pairsFrom a l, pr.1 ≠ pr.2 := by
  induction l generalizing a with
  | nil => intro pr hpr; cases hpr
  | cons r rest ih =>
    intro pr hpr
    rcases List.nodup_cons.mp h with ⟨ha, hrest⟩
    cases hpr with
    | head => exact fun hc => ha ((show a = r from hc) ▸ List.mem_cons_self r rest)
    | tail _ hmem => exact ih r hrest pr hmem

lemma generate_player_pairs_eq (order : List Nat) (h : order ≠ []) :
    generate_player_pairs order = some (pairsFrom (order.getLast h) order) := by
  unfold generate_player_pairs
  rw [List.getLast?_eq_getLast order h]

lemma map_fst_pairsFrom_perm (order : List Nat) (hne : order ≠ []) :
    ((pairsFrom (order.getLast hne) order).map Prod.fst).Perm order := by
  rw [map_fst_pairsFrom _ _ hne]
  have h1 : (order.dropLast ++ [order.getLast hne]).Perm
      (order.getLast hne :: order.dropLast) := List.perm_append_singleton _ _
  have h2 := h1.symm
  rw [List.dropLast_append_getLast hne] at h2
  exact h2

/-! ### Theorems for the claims -/

/-- C1: for every non-empty, duplicate-free roster permutation, the pairing
returned by `generate_player_pairs` is a bijection of the id set: every id
occurs exactly once as an asker and exactly once as a responder, and no id
is paired with itself once the roster has more than one player. -/
theorem C1_pairing_is_fixpoint_free_bijection (order : List Nat)
    (hne : order ≠ []) (hnd : order.Nodup) :
    ∃ pairs, generate_player_pairs order = some pairs ∧
      pairs.map Prod.snd = order ∧
      (pairs.map Prod.fst).Perm order ∧
      (pairs.map Prod.fst).Nodup ∧
      (pairs.map Prod.snd).Nodup ∧
      (1 < order.length → ∀ pr ∈ pairs, pr.1 ≠ pr.2) := by
  refine ⟨pairsFrom (order.getLast hne) order,
    generate_player_pairs_eq order hne, map_snd_pairsFrom _ _, ?_, ?_, ?_, ?_⟩
  · exact map_fst_pairsFrom_perm order hne
  · exact (map_fst_pairsFrom_perm order hne).symm.nodup hnd
  · rw [map_snd_pairsFrom]; exact hnd
  · intro hlen pr hpr
    cases order with
    | nil => exact absurd rfl hne
    | cons p0 rest =>
      cases rest with
      | nil => simp at hlen
      | cons r1 rest1 =>
        rcases List.nodup_cons.mp hnd with ⟨hp0, hrest⟩
        have hlast : (p0 :: r1 :: rest1).getLast hne ∈ r1 :: rest1 := by
          rw [List.getLast_cons (l := r1 :: rest1) (by simp)]
          exact List.getLast_mem _
        cases hpr with
        | head =>
          exact fun hc =>
            hp0 ((show (p0 :: r1 :: rest1).getLast hne = p0 from hc) ▸ hlast)
        | tail _ hmem => exact pairsFrom_no_fixpoint p0 (r1 :: rest1) hnd pr hmem

/-- C1 witness: concrete instance at the permutation `[2,0,1]`. -/
theorem C1_pairing_is_fixpoint_free_bijection_witness :
    ∃ pairs, generate_player_pairs [2, 0, 1] = some pairs ∧
      pairs.map Prod.snd = [2, 0, 1] ∧
      (pairs.map Prod.fst).Perm [2, 0, 1] ∧
      (pairs.map Prod.fst).Nodup ∧
      (pairs.map Prod.snd).Nodup ∧
      (1 < ([2, 0, 1] : List Nat).length → ∀ pr ∈ pairs, pr.1 ≠ pr.2) :=
  C1_pairing_is_fixpoint_free_bijection [2, 0, 1] (by decide) (by decide)

/-- C2: the pairing is exactly the cyclic rotation on the shuffled
permutation: the pair list equals the consecutive pairs of the permutation
read cyclically (the last element asks the first, and each element asks its
successor), and on the permutation `[2,0,1]` the asker-to-responder mapping
sends `1` to `2`, `2` to `0` and `0` to `1`. -/
theorem C2_pairs_are_cyclic_rotation :
    (∀ (order : List Nat) (hne : order ≠ []),
      generate_player_pairs order =
        some ((order.getLast hne :: order).zip order) ∧
      (order.getLast hne, order.head hne) ∈
        (order.getLast hne :: order).zip order ∧
      (∀ i (hi : i + 1 < order.length),
        (order.get ⟨i, Nat.lt_of_succ_lt hi⟩, order.get ⟨i + 1, hi⟩) ∈
          (order.getLast hne :: order).zip order)) ∧
    generate_player_pairs [2, 0, 1] = some [(1, 2), (2, 0), (0, 1)] ∧
    lookupPair [(1, 2), (2, 0), (0, 1)] 0 = some 1 ∧
    lookupPair [(1, 2), (2, 0), (0, 1)] 1 = some 2 ∧
    lookupPair [(1, 2), (2, 0), (0, 1)] 2 = some 0 := by
  refine ⟨?_, by decide, by decide, by decide, by decide⟩
  intro order hne
  have hlen : ∀ i, i < order.length →
      i < ((order.getLast hne :: order).zip order).length := by
    intro i hi
    rw [List.length_zip]
    simp only [List.length_cons]
    omega
  have hpos : 0 < order.length := List.length_pos.mpr hne
  refine ⟨?_, ?_, ?_⟩
  · rw [generate_player_pairs_eq order hne, pairsFrom_eq_zip]
  · have h0 := hlen 0 hpos
    have : ((order.getLast hne :: order).zip order).get ⟨0, h0⟩ =
        (order.getLast hne, order.head hne) := by
      rw [List.get_eq_getElem, List.getElem_zip]
      rw [List.getElem_cons_zero, List.head_eq_getElem]
    exact this ▸ List.get_mem _ 0 h0
  · intro i hi
    have hz := hlen (i + 1) hi
    have : ((order.getLast hne :: order).zip order).get ⟨i + 1, hz⟩ =
        (order.get ⟨i, Nat.lt_of_succ_lt hi⟩, order.get ⟨i + 1, hi⟩) := by
      rw [List.get_eq_getElem, List.getElem_zip]
      rw [List.getElem_cons_succ, List.get_eq_getElem, List.get_eq_getElem]
    exact this ▸ List.get_mem _ (i + 1) hz

/-- C2 witness: the general rotation statement instantiated at `[2,0,1]`. -/
theorem C2_pairs_are_cyclic_rotation_witness :
    generate_player_pairs [2, 0, 1] =
      some ((([2, 0, 1] : List Nat).getLast (by decide) :: [2, 0, 1]).zip
        [2, 0, 1]) :=
  (C2_pairs_are_cyclic_rotation.1 [2, 0, 1] (by decide)).1

/-- C10: with an empty roster (first roster line empty) the game state has no
players, and `generate_player_pairs` hits the `order.last().unwrap()` panic
(`none`) on the empty shuffled id list, so the round aborts; with at least
one player the unwrap always succeeds. -/
theorem C10_empty_roster_pairing_panics :
    (∀ (stdin : Nat → String) (pos fuel : Nat), stdin pos = "" →
      roster_loop stdin (fuel + 1) Game.new pos = some (Game.new, pos + 1) ∧
      Game.new.players = []) ∧
    (∀ order : List Nat, order.Perm ([] : List Nat) →
      generate_player_pairs order = none) ∧
    (∀ (fuel : Nat) (g : Game) (rng : RoundRng) (stdin : Nat → String)
      (pos : Nat), g.players = [] → rng.order.Perm g.player_ids →
      do_round fuel g rng stdin pos = none) ∧
    (∀ (g : Game) (order : List Nat), g.players ≠ [] →
      order.Perm g.player_ids →
      ∃ pairs, generate_player_pairs order = some pairs) := by
  refine ⟨?_, ?_, ?_, ?_⟩
  · intro stdin pos fuel h
    exact ⟨by simp [roster_loop, h], rfl⟩
  · intro order h
    rw [h.eq_nil]; rfl
  · intro fuel g rng stdin pos hg hperm
    have hids : g.player_ids = [] := by simp [Game.player_ids, hg]
    rw [hids] at hperm
    have hor : rng.order = [] := hperm.eq_nil
    unfold do_round pend_questions
    rw [hor]
    rfl
  · intro g order hg hperm
    have hne : order ≠ [] := by
      intro hc
      subst hc
      have h2 : g.player_ids = [] := hperm.symm.eq_nil
      exact hg (List.map_eq_nil_iff.mp h2)
    exact ⟨_, generate_player_pairs_eq order hne⟩

/-- C10 witness: the empty first line leaves zero players and the pairing
unwrap fails; for the two-player roster `gW` it succeeds. -/
theorem C10_empty_roster_pairing_panics_witness :
    (roster_loop (fun _ => "") 1 Game.new 0 = some (Game.new, 1) ∧
      Game.new.players = []) ∧
    generate_player_pairs [] = none ∧
    do_round 1 Game.new { order := [], guessOrders := fun _ => [] }
      (fun _ => "") 0 = none ∧
    ∃ pairs, generate_player_pairs [1, 0] = some pairs :=
  ⟨C10_empty_roster_pairing_panics.1 (fun _ => "") 0 0 rfl,
   C10_empty_roster_pairing_panics.2.1 [] List.Perm.nil,
   C10_empty_roster_pairing_panics.2.2.1 1 Game.new
     { order := [], guessOrders := fun _ => [] } (fun _ => "") 0 rfl
     List.Perm.nil,
   C10_empty_roster_pairing_panics.2.2.2 gW [1, 0] (by decide) (by decide)⟩

/-! ### Helper lemmas about lookup and the answer phase -/

lemma findPlayer_map (f : Player → Player) (hf : ∀ p, (f p).id = p.id)
    (ps : List Player) (j : Nat) :
    findPlayer (ps.map f) j = (findPlayer ps j).map f := by
  induction ps with
  | nil => rfl
  | cons p rest ih =>
    simp only [findPlayer, List.map_cons, List.find?_cons] at *
    rw [hf p]
    cases hpj : (decide (p.id = j)) with
    | true => rfl
    | false => exact ih

lemma clearPending_preserves_id (j : Nat) (p : Player) :
    (if p.id = j then { p with question_pending_answer := none } else p).id
      = p.id := by
  split <;> rfl

lemma findPlayer_clearPending_ne (ps : List Player) (i j : Nat) (hij : i ≠ j) :
    findPlayer (clearPending ps j) i = findPlayer ps i := by
  unfold clearPending
  rw [findPlayer_map _ (clearPending_preserves_id j)]
  cases hfp : findPlayer ps i with
  | none => rfl
  | some pl =>
    have hid : pl.id = i := by simpa using List.find?_some hfp
    simp [hid, hij]

lemma mem_of_mem_clearPending (ps : List Player) (j : Nat) (pl : Player)
    (q : Question) (hm : pl ∈ clearPending ps j)
    (hq : pl.question_pending_answer = some q) : pl ∈ ps := by
  unfold clearPending at hm
  rcases List.mem_map.mp hm with ⟨x, hx, hfx⟩
  by_cases hxj : x.id = j
  · rw [if_pos hxj] at hfx
    rw [← hfx] at hq
    cases hq
  · rw [if_neg hxj] at hfx
    exact hfx ▸ hx

lemma inputAnswersGo_spec (stdin : Nat → String) (L : List Nat) :
    ∀ (g : Game) (pos : Nat) (answers : List AnsweredQuestion) (g' : Game)
      (posE : Nat), inputAnswersGo stdin L g pos = some (answers, g', posE) →
      answers.map AnsweredQuestion.answered_by = L ∧
      ∀ aq ∈ answers, ∃ pl, pl ∈ g.players ∧ pl.id = aq.answered_by ∧
        pl.question_pending_answer = some aq.question := by
  induction L with
  | nil =>
    intro g pos answers g' posE h
    simp only [inputAnswersGo, Option.some.injEq, Prod.mk.injEq] at h
    obtain ⟨rfl, -, -⟩ := h
    exact ⟨rfl, by intro aq haq; cases haq⟩
  | cons p rest ih =>
    intro g pos answers g' posE h
    cases hfp : findPlayer g.players p with
    | none => simp [inputAnswersGo, hfp] at h
    | some pl =>
      cases hpq : pl.question_pending_answer with
      | none => simp [inputAnswersGo, hfp, hpq] at h
      | some q =>
        cases hrec : inputAnswersGo stdin rest
            { g with players := clearPending g.players p } (pos + 1 + 1) with
        | none => simp [inputAnswersGo, hfp, hpq, hrec] at h
        | some out =>
          obtain ⟨answers1, g1, pos1⟩ := out
          simp only [inputAnswersGo, hfp, hpq, hrec, Option.some.injEq,
            Prod.mk.injEq] at h
          obtain ⟨rfl, -, -⟩ := h
          obtain ⟨ihmap, ihpend⟩ := ih _ _ _ _ _ hrec
          constructor
          · simp [Question.respond, ihmap]
          · intro aq haq
            cases haq with
            | head =>
              refine ⟨pl, List.mem_of_find?_eq_some hfp, ?_, ?_⟩
              · simpa using List.find?_some hfp
              · exact hpq
            | tail _ hmem =>
              rcases ihpend aq hmem with ⟨pl2, hpl2, hid2, hq2⟩
              exact ⟨pl2, mem_of_mem_clearPending _ p pl2 _ hpl2 hq2, hid2, hq2⟩

/-- C3: a successful answer phase yields exactly one `AnsweredQuestion` per
registered player; the `answered_by` values, in order, are exactly the
iterated player ids (hence pairwise distinct when ids are, and covering the
id set), and each answer's `answered_by` player held exactly that question as
pending. -/
theorem C3_answers_one_per_player (g : Game) (stdin : Nat → String)
    (pos : Nat) (answers : List AnsweredQuestion) (g' : Game) (posE : Nat)
    (h : input_answers g stdin pos = some (answers, g', posE)) :
    answers.length = g.players.length ∧
    answers.map AnsweredQuestion.answered_by = g.player_ids ∧
    (g.player_ids.Nodup → (answers.map AnsweredQuestion.answered_by).Nodup) ∧
    (∀ i, i ∈ answers.map AnsweredQuestion.answered_by ↔ i ∈ g.player_ids) ∧
    ∀ aq ∈ answers, ∃ pl, pl ∈ g.players ∧ pl.id = aq.answered_by ∧
      pl.question_pending_answer = some aq.question := by
  obtain ⟨hmap, hpend⟩ := inputAnswersGo_spec stdin g.player_ids g pos
    answers g' posE h
  refine ⟨?_, hmap, ?_, ?_, hpend⟩
  · have := congrArg List.length hmap
    simpa [Game.player_ids] using this
  · intro hnd; rw [hmap]; exact hnd
  · intro i; rw [hmap]

/-- C3 witness: the concrete two-player answer phase on `gPend`. -/
theorem C3_answers_one_per_player_witness :
    ansW.length = gPend.players.length ∧
    ansW.map AnsweredQuestion.answered_by = gPend.player_ids ∧
    (gPend.player_ids.Nodup →
      (ansW.map AnsweredQuestion.answered_by).Nodup) ∧
    (∀ i, i ∈ ansW.map AnsweredQuestion.answered_by ↔ i ∈ gPend.player_ids) ∧
    ∀ aq ∈ ansW, ∃ pl, pl ∈ gPend.players ∧ pl.id = aq.answered_by ∧
      pl.question_pending_answer = some aq.question :=
  C3_answers_one_per_player gPend (fun _ => "ans") 0 ansW gPendCleared 4 rfl

/-! ### Helper lemmas about the guessing loop -/

lemma guessLoop_pos_lt (g : Game) (selfId : Nat) (stdin : Nat → String) :
    ∀ (fuel pos v posE : Nat),
      guessLoop g selfId stdin fuel pos = some (v, posE) → pos < posE := by
  intro fuel
  induction fuel with
  | zero => intro pos v posE h; cases h
  | succ fuel ih =>
    intro pos v posE h
    cases hp : parse_u8 (stdin pos) with
    | none =>
      simp only [guessLoop, hp] at h
      exact Nat.lt_of_le_of_lt (Nat.le_succ pos) (ih _ _ _ h)
    | some n =>
      by_cases hany : g.players.any (fun pl => pl.id = n) = true
      · by_cases hself : n = selfId
        · subst hself
          simp [guessLoop, hp, hany] at h
          exact Nat.lt_of_le_of_lt (Nat.le_succ pos) (ih _ _ _ h)
        · simp [guessLoop, hp, hany, hself] at h
          obtain ⟨-, rfl⟩ := h
          exact Nat.lt_succ_self pos
      · simp [guessLoop, hp, hany] at h
        exact Nat.lt_of_le_of_lt (Nat.le_succ pos) (ih _ _ _ h)

/-- C4: one prompt of the guess-validation loop accepts a guess (consuming
exactly one line) if and only if the line parses as a `u8` that is an
existing player id different from the guesser's own id; on any invalid line
the loop re-prompts the same player on the next line. In particular the
inputs `"x"`, `"99"`, `"1"` of guesser `1` are each rejected with a
re-prompt before the valid `"0"` is accepted. -/
theorem C4_guess_accepted_iff_valid (g : Game) (selfId : Nat)
    (stdin : Nat → String) (fuel pos : Nat) :
    (∀ v, guessLoop g selfId stdin (fuel + 1) pos = some (v, pos + 1) ↔
      (parse_u8 (stdin pos) = some v ∧
        g.players.any (fun pl => pl.id = v) = true ∧ v ≠ selfId)) ∧
    ((∀ n, parse_u8 (stdin pos) = some n →
        ¬(g.players.any (fun pl => pl.id = n) = true ∧ n ≠ selfId)) →
      guessLoop g selfId stdin (fuel + 1) pos =
        guessLoop g selfId stdin fuel (pos + 1)) ∧
    guessLoop gEx 1 stdinEx 4 0 = guessLoop gEx 1 stdinEx 3 1 ∧
    guessLoop gEx 1 stdinEx 3 1 = guessLoop gEx 1 stdinEx 2 2 ∧
    guessLoop gEx 1 stdinEx 2 2 = guessLoop gEx 1 stdinEx 1 3 ∧
    guessLoop gEx 1 stdinEx 1 3 = some (0, 4) := by
  refine ⟨?_, ?_, by decide, by decide, by decide, by decide⟩
  · intro v
    constructor
    · intro h
      cases hp : parse_u8 (stdin pos) with
      | none =>
        simp only [guessLoop, hp] at h
        exact absurd (guessLoop_pos_lt g selfId stdin _ _ _ _ h)
          (Nat.lt_irrefl (pos + 1))
      | some n =>
        by_cases hany : g.players.any (fun pl => pl.id = n) = true
        · by_cases hself : n = selfId
          · subst hself
            simp [guessLoop, hp, hany] at h
            exact absurd (guessLoop_pos_lt g _ stdin _ _ _ _ h)
              (Nat.lt_irrefl (pos + 1))
          · simp [guessLoop, hp, hany, hself] at h
            subst h
            exact ⟨rfl, hany, hself⟩
        · simp [guessLoop, hp, hany] at h
          exact absurd (guessLoop_pos_lt g selfId stdin _ _ _ _ h)
            (Nat.lt_irrefl (pos + 1))
    · rintro ⟨hp, hany, hself⟩
      simp [guessLoop, hp, hany, hself]
  · intro hinv
    cases hp : parse_u8 (stdin pos) with
    | none => simp [guessLoop, hp]
    | some n =>
      by_cases hany : g.players.any (fun pl => pl.id = n) = true
      · have hself : n = selfId := by
          by_contra hc
          exact hinv n hp ⟨hany, hc⟩
        subst hself
        simp [guessLoop, hp, hany]
      · simp [guessLoop, hp, hany]

/-- C4 witness: acceptance of the valid guess `"0"` at prompt 3, and the
re-prompt after the self-guess `"1"` at prompt 2. -/
theorem C4_guess_accepted_iff_valid_witness :
    (guessLoop gEx 1 stdinEx 1 3 = some (0, 3 + 1) ↔
      (parse_u8 (stdinEx 3) = some 0 ∧
        gEx.players.any (fun pl => pl.id = 0) = true ∧ 0 ≠ 1)) ∧
    guessLoop gEx 1 stdinEx 1 2 = guessLoop gEx 1 stdinEx 0 3 :=
  ⟨(C4_guess_accepted_iff_valid gEx 1 stdinEx 0 3).1 0,
   (C4_guess_accepted_iff_valid gEx 1 stdinEx 0 2).2.1 (fun n hn => by
      have h1 : parse_u8 (stdinEx 2) = some 1 := by decide
      rw [h1] at hn
      cases hn
      exact fun hc => hc.2 rfl)⟩

/-! ### Helper lemmas about scoring -/

lemma bump_preserves_id (guesser : Nat) (p : Player) :
    (if p.id = guesser then { p with score := p.score + 1 } else p).id
      = p.id := by
  split <;> rfl

lemma scoreOf_bump (ps : List Player) (guesser : Nat) :
    scoreOf (ps.map (fun pl =>
        if pl.id = guesser then { pl with score := pl.score + 1 } else pl))
      guesser = (scoreOf ps guesser).map (· + 1) := by
  unfold scoreOf
  rw [findPlayer_map _ (bump_preserves_id guesser)]
  cases hfp : findPlayer ps guesser with
  | none => rfl
  | some pl =>
    have hid : pl.id = guesser := by simpa using List.find?_some hfp
    simp [hid]

lemma scoreOf_bump_ne (ps : List Player) (guesser j : Nat) (hj : j ≠ guesser) :
    scoreOf (ps.map (fun pl =>
        if pl.id = guesser then { pl with score := pl.score + 1 } else pl)) j
      = scoreOf ps j := by
  unfold scoreOf
  rw [findPlayer_map _ (bump_preserves_id guesser)]
  cases hfp : findPlayer ps j with
  | none => rfl
  | some pl =>
    have hid : pl.id = j := by simpa using List.find?_some hfp
    simp [hid, hj]

/-- C5: resolving one guess: when the guess names the true answerer, exactly
the guesser's score rises by exactly 1 and every other player's score is
untouched; when it names anyone else, the state is returned unchanged. -/
theorem C5_correct_guess_scores_one_point (ps : List Player)
    (ab guesser guessed : Nat)
    (hg : ps.any (fun pl => pl.id = guesser) = true) :
    (guessed = ab →
      ∃ ps', applyGuess ps ab guesser guessed = some ps' ∧
        scoreOf ps' guesser = (scoreOf ps guesser).map (· + 1) ∧
        (∀ j, j ≠ guesser → scoreOf ps' j = scoreOf ps j) ∧
        ps'.length = ps.length) ∧
    (guessed ≠ ab → applyGuess ps ab guesser guessed = some ps) := by
  constructor
  · intro heq
    subst heq
    refine ⟨ps.map (fun pl =>
        if pl.id = guesser then { pl with score := pl.score + 1 } else pl),
      ?_, scoreOf_bump ps guesser,
      fun j hj => scoreOf_bump_ne ps guesser j hj, by simp⟩
    simp [applyGuess, hg]
  · intro hne
    simp [applyGuess, hg, hne]

/-- C5 witness: in the Joe/Bob/Fred roster, player 2 guessing the true
answerer 1 gains one point and nobody else changes; guessing 0 instead
leaves the state untouched. -/
theorem C5_correct_guess_scores_one_point_witness :
    (∃ ps', applyGuess gEx.players 1 2 1 = some ps' ∧
      scoreOf ps' 2 = (scoreOf gEx.players 2).map (· + 1) ∧
      (∀ j, j ≠ 2 → scoreOf ps' j = scoreOf gEx.players j) ∧
      ps'.length = gEx.players.length) ∧
    applyGuess gEx.players 1 2 0 = some gEx.players :=
  ⟨(C5_correct_guess_scores_one_point gEx.players 1 2 1 (by decide)).1 rfl,
   (C5_correct_guess_scores_one_point gEx.players 1 2 0 (by decide)).2
     (by decide)⟩

/-! ### Helper lemmas about guess collection -/

lemma guessLoop_stdin_congr (g : Game) (selfId : Nat)
    (stdin stdin' : Nat → String) :
    ∀ (fuel pos : Nat), (∀ k, pos ≤ k → stdin' k = stdin k) →
      guessLoop g selfId stdin' fuel pos =
        guessLoop g selfId stdin fuel pos := by
  intro fuel
  induction fuel with
  | zero => intro pos h; rfl
  | succ fuel ih =>
    intro pos h
    have h0 : stdin' pos = stdin pos := h pos (Nat.le_refl pos)
    cases hp : parse_u8 (stdin pos) with
    | none =>
      simp only [guessLoop, h0, hp]
      exact ih (pos + 1) (fun k hk => h k (Nat.le_of_succ_le hk))
    | some n =>
      by_cases hany : (g.players.any fun pl => pl.id = n) = true
      · by_cases hself : n = selfId
        · subst hself
          simp only [guessLoop, h0, hp]
          simp [hany]
          exact ih (pos + 1) (fun k hk => h k (Nat.le_of_succ_le hk))
        · simp only [guessLoop, h0, hp]
          simp [hany, hself]
      · simp only [guessLoop, h0, hp]
        simp [hany]
        exact ih (pos + 1) (fun k hk => h k (Nat.le_of_succ_le hk))

lemma collectGuesses_stdin_congr (fuel : Nat) (g : Game) (ab : Nat)
    (stdin stdin' : Nat → String) :
    ∀ (order : List Nat) (pos : Nat),
      (∀ k, pos ≤ k → stdin' k = stdin k) →
      collectGuesses fuel g ab stdin' order pos =
        collectGuesses fuel g ab stdin order pos := by
  intro order
  induction order with
  | nil => intro pos h; rfl
  | cons p rest ih =>
    intro pos h
    by_cases hpab : p = ab
    · subst hpab
      simp only [collectGuesses, if_pos rfl]
      exact ih (pos + 1 + 1) (fun k hk => h k (by omega))
    · simp only [collectGuesses, if_neg hpab]
      rw [guessLoop_stdin_congr g p stdin stdin' fuel (pos + 1)
        (fun k hk => h k (by omega))]
      cases hg : guessLoop g p stdin fuel (pos + 1) with
      | none => rfl
      | some out =>
        obtain ⟨guess, pos2⟩ := out
        have hlt := guessLoop_pos_lt g p stdin fuel (pos + 1) guess pos2 hg
        dsimp only
        rw [ih pos2 (fun k hk => h k (by omega))]

lemma collectGuesses_map_fst (fuel : Nat) (g : Game) (ab : Nat)
    (stdin : Nat → String) :
    ∀ (order : List Nat) (pos : Nat) (guesses : List (Nat × Nat))
      (posE : Nat),
      collectGuesses fuel g ab stdin order pos = some (guesses, posE) →
      guesses.map Prod.fst = order.filter (fun p => p ≠ ab) := by
  intro order
  induction order with
  | nil =>
    intro pos guesses posE h
    simp only [collectGuesses, Option.some.injEq, Prod.mk.injEq] at h
    obtain ⟨rfl, -⟩ := h
    rfl
  | cons p rest ih =>
    intro pos guesses posE h
    by_cases hpab : p = ab
    · subst hpab
      simp only [collectGuesses, if_pos rfl] at h
      rw [ih _ _ _ h]
      simp
    · cases hg : guessLoop g p stdin fuel (pos + 1) with
      | none => simp [collectGuesses, hpab, hg] at h
      | some out =>
        obtain ⟨guess, pos2⟩ := out
        cases hrec : collectGuesses fuel g ab stdin rest pos2 with
        | none => simp [collectGuesses, hpab, hg, hrec] at h
        | some out2 =>
          obtain ⟨gs, posE2⟩ := out2
          simp only [collectGuesses, if_neg hpab, hg, hrec,
            Option.some.injEq, Prod.mk.injEq] at h
          obtain ⟨rfl, -⟩ := h
          simp only [List.map_cons, List.filter_cons]
          rw [ih _ _ _ hrec]
          simp [hpab]

/-- C6: for one answered question, the guess-collection pass never asks the
answerer: the guessers are exactly the non-answerer players in the shuffled
order, the answerer contributes no `(guesser, guess)` pair, and the
answerer's placeholder interaction consumes two input lines whose content
cannot influence the result. -/
theorem C6_answerer_gets_placeholder (fuel : Nat) (g : Game) (ab : Nat)
    (stdin : Nat → String) :
    (∀ (order : List Nat) (pos : Nat) (guesses : List (Nat × Nat))
      (posE : Nat),
      collectGuesses fuel g ab stdin order pos = some (guesses, posE) →
      guesses.map Prod.fst = order.filter (fun p => p ≠ ab) ∧
      ab ∉ guesses.map Prod.fst ∧
      (∀ p ∈ order, p ≠ ab → p ∈ guesses.map Prod.fst)) ∧
    (∀ (rest : List Nat) (pos : Nat),
      collectGuesses fuel g ab stdin (ab :: rest) pos =
        collectGuesses fuel g ab stdin rest (pos + 1 + 1)) ∧
    (∀ (rest : List Nat) (pos : Nat) (stdin' : Nat → String),
      (∀ k, pos + 1 + 1 ≤ k → stdin' k = stdin k) →
      collectGuesses fuel g ab stdin' (ab :: rest) pos =
        collectGuesses fuel g ab stdin (ab :: rest) pos) := by
  refine ⟨?_, ?_, ?_⟩
  · intro order pos guesses posE h
    have hmap := collectGuesses_map_fst fuel g ab stdin order pos guesses
      posE h
    refine ⟨hmap, ?_, ?_⟩
    · rw [hmap]
      simp [List.mem_filter]
    · intro p hp hne
      rw [hmap]
      exact List.mem_filter.mpr ⟨hp, by simp [hne]⟩
  · intro rest pos
    simp [collectGuesses]
  · intro rest pos stdin' hagree
    have h1 : collectGuesses fuel g ab stdin' (ab :: rest) pos =
        collectGuesses fuel g ab stdin' rest (pos + 1 + 1) := by
      simp [collectGuesses]
    have h2 : collectGuesses fuel g ab stdin (ab :: rest) pos =
        collectGuesses fuel g ab stdin rest (pos + 1 + 1) := by
      simp [collectGuesses]
    rw [h1, h2]
    exact collectGuesses_stdin_congr fuel g ab stdin stdin' rest
      (pos + 1 + 1) hagree

/-- C6 witness: collecting guesses over `gEx` with answerer `1` in order
`[0,1,2]`; players `0` and `2` guess, `1` does not. -/
theorem C6_answerer_gets_placeholder_witness :
    ([(0, 1), (2, 1)].map Prod.fst =
        [0, 1, 2].filter (fun p => p ≠ 1) ∧
      1 ∉ [(0, 1), (2, 1)].map Prod.fst ∧
      (∀ p ∈ [0, 1, 2], p ≠ 1 → p ∈ [(0, 1), (2, 1)].map Prod.fst)) ∧
    collectGuesses 1 gEx 1 stdinC [1] 0 =
      collectGuesses 1 gEx 1 stdinC [] (0 + 1 + 1) :=
  ⟨(C6_answerer_gets_placeholder 1 gEx 1 stdinC).1 [0, 1, 2] 0
      [(0, 1), (2, 1)] 6 (by decide),
   (C6_answerer_gets_placeholder 1 gEx 1 stdinC).2.1 [] 0⟩

/-- C8: the final score display lists every player, sorted so that the
scores read in non-increasing order. -/
theorem C8_final_ranking_nonincreasing (g : Game)
    (ranking : List (String × Nat))
    (h : show_final_scores g = some ranking) :
    (ranking.map Prod.snd).Pairwise (fun a b => b ≤ a) ∧
    ranking.Perm (g.players.map (fun p => (p.nickname, p.score))) := by
  unfold show_final_scores at h
  by_cases hemp : g.players.isEmpty
  · rw [if_pos hemp] at h; cases h
  · rw [if_neg hemp] at h
    have hrank : ranking =
        (g.players.mergeSort (fun a b => b.score ≤ a.score)).map
          (fun p => (p.nickname, p.score)) := (Option.some.inj h).symm
    subst hrank
    constructor
    · have hsorted := @List.sorted_mergeSort Player
        (fun a b : Player => decide (b.score ≤ a.score))
        (fun a b c hab hbc => by
          simp only [decide_eq_true_eq] at *
          omega)
        (fun a b => by
          simp only [Bool.or_eq_true, decide_eq_true_eq]
          omega)
        g.players
      rw [List.map_map]
      exact hsorted.map _ (fun a b hab => by
        simpa using of_decide_eq_true hab)
    · exact (List.mergeSort_perm g.players _).map _

unseal List.merge List.mergeSort in
/-- C8 witness: the ranking of `gScored` is `Bob (3), Fred (2), Joe (1)`. -/
theorem C8_final_ranking_nonincreasing_witness :
    (([("Bob", 3), ("Fred", 2), ("Joe", 1)] : List (String × Nat)).map
      Prod.snd).Pairwise (fun a b => b ≤ a) ∧
    ([("Bob", 3), ("Fred", 2), ("Joe", 1)] : List (String × Nat)).Perm
      (gScored.players.map (fun p => (p.nickname, p.score))) :=
  C8_final_ranking_nonincreasing gScored
    [("Bob", 3), ("Fred", 2), ("Joe", 1)] (by decide)

/-! ### Helper lemmas about fatal lookups in the answer phase -/

lemma inputAnswersGo_none_of_missing (stdin : Nat → String) (L : List Nat) :
    ∀ (g : Game) (pos : Nat) (p : Nat) (pl : Player), p ∈ L →
      findPlayer g.players p = some pl →
      pl.question_pending_answer = none →
      inputAnswersGo stdin L g pos = none := by
  induction L with
  | nil => intro g pos p pl hp; cases hp
  | cons q rest ih =>
    intro g pos p pl hp hfp hpq
    by_cases hqp : q = p
    · subst hqp
      simp [inputAnswersGo, hfp, hpq]
    · cases hfq : findPlayer g.players q with
      | none => simp [inputAnswersGo, hfq]
      | some plq =>
        cases hpqq : plq.question_pending_answer with
        | none => simp [inputAnswersGo, hfq, hpqq]
        | some qq =>
          have hp2 : p ∈ rest := by
            cases hp with
            | head => exact absurd rfl hqp
            | tail _ hmem => exact hmem
          have hfp2 : findPlayer (clearPending g.players q) p = some pl := by
            rw [findPlayer_clearPending_ne g.players p q
              (fun hc => hqp hc.symm)]
            exact hfp
          have hrec := ih { g with players := clearPending g.players q }
            (pos + 1 + 1) p pl hp2 hfp2 hpq
          simp [inputAnswersGo, hfq, hpqq, hrec]

lemma inputAnswersGo_isSome_of_all_pending (stdin : Nat → String)
    (L : List Nat) :
    ∀ (g : Game) (pos : Nat), L.Nodup →
      (∀ p ∈ L, ∃ pl, findPlayer g.players p = some pl ∧
        pl.question_pending_answer.isSome) →
      (inputAnswersGo stdin L g pos).isSome := by
  induction L with
  | nil => intro g pos _ _; simp [inputAnswersGo]
  | cons p rest ih =>
    intro g pos hnd hall
    obtain ⟨pl, hfp, hpq⟩ := hall p (List.mem_cons_self p rest)
    obtain ⟨q, hq⟩ := Option.isSome_iff_exists.mp hpq
    have hall2 : ∀ r ∈ rest, ∃ plr,
        findPlayer (clearPending g.players p) r = some plr ∧
        plr.question_pending_answer.isSome := by
      intro r hr
      obtain ⟨plr, hfr, hqr⟩ := hall r (List.mem_cons_of_mem p hr)
      have hrp : r ≠ p := fun hc =>
        (List.nodup_cons.mp hnd).1 (hc ▸ hr)
      refine ⟨plr, ?_, hqr⟩
      rw [findPlayer_clearPending_ne g.players r p hrp]
      exact hfr
    have hrec := ih { g with players := clearPending g.players p }
      (pos + 1 + 1) (List.nodup_cons.mp hnd).2 hall2
    obtain ⟨out, hout⟩ := Option.isSome_iff_exists.mp hrec
    obtain ⟨ans, g2, pos2⟩ := out
    simp [inputAnswersGo, hfp, hq, hout]

/-- C9: looking up an unknown player id aborts (`summon_player` hits its
`unwrap`), and so does taking an absent pending question during the answer
phase; conversely, when every registered player holds a pending question —
as a correctly constructed pairing guarantees — the answer phase never hits
those fatal branches. -/
theorem C9_fatal_lookups_and_unreachability :
    (∀ (g : Game) (p : Nat) (pos : Nat), p ∉ g.player_ids →
      summon_player g p pos = none) ∧
    (∀ (g : Game) (stdin : Nat → String) (pos : Nat) (p : Nat) (pl : Player),
      p ∈ g.player_ids → findPlayer g.players p = some pl →
      pl.question_pending_answer = none →
      input_answers g stdin pos = none) ∧
    (∀ (g : Game) (stdin : Nat → String) (pos : Nat),
      g.player_ids.Nodup →
      (∀ pl ∈ g.players, pl.question_pending_answer.isSome) →
      (input_answers g stdin pos).isSome) := by
  refine ⟨?_, ?_, ?_⟩
  · intro g p pos hp
    have : findPlayer g.players p = none := by
      rw [findPlayer, List.find?_eq_none]
      intro x hx
      simp only [decide_eq_true_eq]
      intro hc
      exact hp (List.mem_map.mpr ⟨x, hx, hc⟩)
    simp [summon_player, this]
  · intro g stdin pos p pl hp hfp hpq
    exact inputAnswersGo_none_of_missing stdin g.player_ids g pos p pl hp
      hfp hpq
  · intro g stdin pos hnd hpend
    refine inputAnswersGo_isSome_of_all_pending stdin g.player_ids g pos hnd
      ?_
    intro p hp
    have hex : ∃ x ∈ g.players, (fun pl : Player => decide (pl.id = p)) x
        = true := by
      rcases List.mem_map.mp hp with ⟨x, hx, hxid⟩
      exact ⟨x, hx, by simp [hxid]⟩
    have hsome : (g.players.find? (fun pl => pl.id = p)).isSome :=
      List.find?_isSome.mpr hex
    obtain ⟨pl, hfp⟩ := Option.isSome_iff_exists.mp hsome
    exact ⟨pl, hfp, hpend pl (List.mem_of_find?_eq_some hfp)⟩

/-- C9 witness: unknown id `5` aborts the summon in the Joe/Bob/Fred
roster; `gW` (no pending questions) aborts the answer phase; `gPend` (all
pending set) completes it. -/
theorem C9_fatal_lookups_and_unreachability_witness :
    summon_player gEx 5 0 = none ∧
    input_answers gW (fun _ => "") 0 = none ∧
    (input_answers gPend (fun _ => "ans") 0).isSome :=
  ⟨C9_fatal_lookups_and_unreachability.1 gEx 5 0 (by decide),
   C9_fatal_lookups_and_unreachability.2.1 gW (fun _ => "") 0 0
     (Player.new 0 "A") (by decide) (by decide) rfl,
   C9_fatal_lookups_and_unreachability.2.2 gPend (fun _ => "ans") 0
     (by decide) (by decide)⟩

/-! ### Input-cursor monotonicity of the phases -/

lemma pendQuestionsGo_pos_le (pairs : List (Nat × Nat))
    (stdin : Nat → String) :
    ∀ (L : List Nat) (g : Game) (pos : Nat) (g' : Game) (posE : Nat),
      pendQuestionsGo pairs stdin L g pos = some (g', posE) → pos ≤ posE := by
  intro L
  induction L with
  | nil =>
    intro g pos g' posE h
    simp only [pendQuestionsGo, Option.some.injEq, Prod.mk.injEq] at h
    obtain ⟨-, rfl⟩ := h
    exact Nat.le_refl _
  | cons p rest ih =>
    intro g pos g' posE h
    cases hs : findPlayer g.players p with
    | none => simp [pendQuestionsGo, summon_player, hs] at h
    | some pl =>
      cases hl : lookupPair pairs p with
      | none =>
        simp [pendQuestionsGo, summon_player, hs, input_question, hl] at h
      | some responder =>
        cases hset : setPending g.players responder
            (Question.mk p (stdin (pos + 1))) with
        | none =>
          simp [pendQuestionsGo, summon_player, hs, input_question, hl,
            hset] at h
        | some ps2 =>
          simp [pendQuestionsGo, summon_player, hs, input_question, hl,
            hset] at h
          have := ih _ _ _ _ h
          omega

lemma inputAnswersGo_pos_le (stdin : Nat → String) :
    ∀ (L : List Nat) (g : Game) (pos : Nat)
      (answers : List AnsweredQuestion) (g' : Game) (posE : Nat),
      inputAnswersGo stdin L g pos = some (answers, g', posE) →
      pos ≤ posE := by
  intro L
  induction L with
  | nil =>
    intro g pos answers g' posE h
    simp only [inputAnswersGo, Option.some.injEq, Prod.mk.injEq] at h
    obtain ⟨-, -, rfl⟩ := h
    exact Nat.le_refl _
  | cons p rest ih =>
    intro g pos answers g' posE h
    cases hfp : findPlayer g.players p with
    | none => simp [inputAnswersGo, hfp] at h
    | some pl =>
      cases hpq : pl.question_pending_answer with
      | none => simp [inputAnswersGo, hfp, hpq] at h
      | some q =>
        cases hrec : inputAnswersGo stdin rest
            { g with players := clearPending g.players p } (pos + 1 + 1) with
        | none => simp [inputAnswersGo, hfp, hpq, hrec] at h
        | some out =>
          obtain ⟨answers1, g1, pos1⟩ := out
          simp only [inputAnswersGo, hfp, hpq, hrec, Option.some.injEq,
            Prod.mk.injEq] at h
          obtain ⟨-, -, rfl⟩ := h
          have := ih _ _ _ _ _ hrec
          omega

lemma collectGuesses_pos_le (fuel : Nat) (g : Game) (ab : Nat)
    (stdin : Nat → String) :
    ∀ (order : List Nat) (pos : Nat) (guesses : List (Nat × Nat))
      (posE : Nat),
      collectGuesses fuel g ab stdin order pos = some (guesses, posE) →
      pos ≤ posE := by
  intro order
  induction order with
  | nil =>
    intro pos guesses posE h
    simp only [collectGuesses, Option.some.injEq, Prod.mk.injEq] at h
    obtain ⟨-, rfl⟩ := h
    exact Nat.le_refl _
  | cons p rest ih =>
    intro pos guesses posE h
    by_cases hpab : p = ab
    · subst hpab
      simp only [collectGuesses, if_pos rfl] at h
      have := ih _ _ _ h
      omega
    · cases hg : guessLoop g p stdin fuel (pos + 1) with
      | none => simp [collectGuesses, hpab, hg] at h
      | some out =>
        obtain ⟨guess, pos2⟩ := out
        cases hrec : collectGuesses fuel g ab stdin rest pos2 with
        | none => simp [collectGuesses, hpab, hg, hrec] at h
        | some out2 =>
          obtain ⟨gs, posE2⟩ := out2
          simp only [collectGuesses, if_neg hpab, hg, hrec,
            Option.some.injEq, Prod.mk.injEq] at h
          obtain ⟨-, rfl⟩ := h
          have h1 := guessLoop_pos_lt g p stdin fuel (pos + 1) guess pos2 hg
          have h2 := ih _ _ _ hrec
          omega

lemma doGuessesOne_pos_le (fuel : Nat) (g : Game) (aq : AnsweredQuestion)
    (order : List Nat) (stdin : Nat → String) (pos : Nat) (g' : Game)
    (posE : Nat) (h : doGuessesOne fuel g aq order stdin pos = some (g', posE)) :
    pos ≤ posE := by
  unfold doGuessesOne at h
  cases hc : collectGuesses fuel g aq.answered_by stdin order pos with
  | none => rw [hc] at h; cases h
  | some out =>
    obtain ⟨guesses, pos1⟩ := out
    rw [hc] at h
    cases hf : findPlayer g.players aq.answered_by with
    | none => simp [hf] at h
    | some pl =>
      cases ha : applyGuesses g.players aq.answered_by guesses with
      | none => simp [hf, ha] at h
      | some ps2 =>
        simp only [hf, ha, Option.some.injEq, Prod.mk.injEq] at h
        obtain ⟨-, rfl⟩ := h
        have := collectGuesses_pos_le fuel g aq.answered_by stdin order pos
          guesses pos1 hc
        omega

lemma do_guesses_pos_le (fuel : Nat) (orders : Nat → List Nat)
    (stdin : Nat → String) :
    ∀ (answers : List AnsweredQuestion) (k : Nat) (g : Game) (pos : Nat)
      (g' : Game) (posE : Nat),
      do_guesses fuel orders stdin answers k g pos = some (g', posE) →
      pos ≤ posE := by
  intro answers
  induction answers with
  | nil =>
    intro k g pos g' posE h
    simp only [do_guesses, Option.some.injEq, Prod.mk.injEq] at h
    obtain ⟨-, rfl⟩ := h
    exact Nat.le_refl _
  | cons aq rest ih =>
    intro k g pos g' posE h
    cases h1 : doGuessesOne fuel g aq (orders k) stdin pos with
    | none => simp [do_guesses, h1] at h
    | some out =>
      obtain ⟨g1, pos1⟩ := out
      simp only [do_guesses, h1] at h
      have ha := doGuessesOne_pos_le fuel g aq (orders k) stdin pos g1 pos1 h1
      have hb := ih _ _ _ _ _ h
      omega

lemma do_round_pos_le (fuel : Nat) (g : Game) (rng : RoundRng)
    (stdin : Nat → String) (pos : Nat) (g' : Game) (posE : Nat)
    (h : do_round fuel g rng stdin pos = some (g', posE)) : pos ≤ posE := by
  unfold do_round pend_questions at h
  cases hp : generate_player_pairs rng.order with
  | none => rw [hp] at h; cases h
  | some pairs =>
    rw [hp] at h
    cases hq : pendQuestionsGo pairs stdin g.player_ids g (pos + 1) with
    | none => simp [hq] at h
    | some out1 =>
      obtain ⟨g1, pos1⟩ := out1
      simp only [hq] at h
      cases ha : input_answers g1 stdin (pos1 + 1) with
      | none => simp [ha] at h
      | some out2 =>
        obtain ⟨answers, g2, pos2⟩ := out2
        simp only [ha] at h
        have h1 := pendQuestionsGo_pos_le pairs stdin g.player_ids g
          (pos + 1) g1 pos1 hq
        have h2 := inputAnswersGo_pos_le stdin g1.player_ids g1 (pos1 + 1)
          answers g2 pos2 ha
        have h3 := do_guesses_pos_le fuel rng.guessOrders stdin answers 0 g2
          pos2 g' posE h
        omega

/-- C7: a successful `start` is exactly three sequential rounds — the state
and the input cursor of each round feed the next, so no round begins before
the previous round's guessing has completed — followed by the final ranking;
and within every round the phases run strictly in the order pairing,
questioning, answering, guessing. -/
theorem C7_three_sequential_rounds_then_ranking (fuel : Nat) (g : Game)
    (rngs : Nat → RoundRng) (stdin : Nat → String) (pos : Nat)
    (h : (start fuel g rngs stdin pos).isSome = true) :
    (∃ g1 p1 g2 p2 g3 p3 ranking,
      do_round fuel g (rngs 1) stdin pos = some (g1, p1) ∧
      do_round fuel g1 (rngs 2) stdin p1 = some (g2, p2) ∧
      do_round fuel g2 (rngs 3) stdin p2 = some (g3, p3) ∧
      pos ≤ p1 ∧ p1 ≤ p2 ∧ p2 ≤ p3 ∧
      show_final_scores g3 = some ranking ∧
      start fuel g rngs stdin pos = some (ranking, p3)) ∧
    (∀ (gr : Game) (rng : RoundRng) (q : Nat) (res : Game × Nat),
      do_round fuel gr rng stdin q = some res →
      ∃ pairs gq posq answers ga posa,
        generate_player_pairs rng.order = some pairs ∧
        pendQuestionsGo pairs stdin gr.player_ids gr (q + 1) =
          some (gq, posq) ∧
        input_answers gq stdin (posq + 1) = some (answers, ga, posa) ∧
        do_guesses fuel rng.guessOrders stdin answers 0 ga posa = some res ∧
        q + 1 ≤ posq ∧ posq + 1 ≤ posa ∧ posa ≤ res.2) := by
  constructor
  · cases h1 : do_round fuel g (rngs 1) stdin pos with
    | none => simp [start, runRounds, h1] at h
    | some out1 =>
      obtain ⟨g1, p1⟩ := out1
      cases h2 : do_round fuel g1 (rngs 2) stdin p1 with
      | none => simp [start, runRounds, h1, h2] at h
      | some out2 =>
        obtain ⟨g2, p2⟩ := out2
        cases h3 : do_round fuel g2 (rngs 3) stdin p2 with
        | none => simp [start, runRounds, h1, h2, h3] at h
        | some out3 =>
          obtain ⟨g3, p3⟩ := out3
          cases hf : show_final_scores g3 with
          | none => simp [start, runRounds, h1, h2, h3, hf] at h
          | some ranking =>
            refine ⟨g1, p1, g2, p2, g3, p3, ranking, rfl, h2, h3,
              do_round_pos_le fuel g (rngs 1) stdin pos g1 p1 h1,
              do_round_pos_le fuel g1 (rngs 2) stdin p1 g2 p2 h2,
              do_round_pos_le fuel g2 (rngs 3) stdin p2 g3 p3 h3, hf, ?_⟩
            simp [start, runRounds, h1, h2, h3, hf]
  · intro gr rng q res hr
    obtain ⟨gres, posE⟩ := res
    unfold do_round pend_questions at hr
    cases hp : generate_player_pairs rng.order with
    | none => rw [hp] at hr; cases hr
    | some pairs =>
      rw [hp] at hr
      cases hq : pendQuestionsGo pairs stdin gr.player_ids gr (q + 1) with
      | none => simp [hq] at hr
      | some out1 =>
        obtain ⟨gq, posq⟩ := out1
        simp only [hq] at hr
        cases ha : input_answers gq stdin (posq + 1) with
        | none => simp [ha] at hr
        | some out2 =>
          obtain ⟨answers, ga, posa⟩ := out2
          simp only [ha] at hr
          refine ⟨pairs, gq, posq, answers, ga, posa, rfl, hq, ha, hr,
            pendQuestionsGo_pos_le pairs stdin gr.player_ids gr (q + 1) gq
              posq hq, ?_, ?_⟩
          · exact inputAnswersGo_pos_le stdin gq.player_ids gq (posq + 1)
              answers ga posa ha
          · exact do_guesses_pos_le fuel rng.guessOrders stdin answers 0 ga
              posa gres posE hr

unseal List.merge List.mergeSort in
/-- C7 witness: the two-player game `gW` driven by `stdinW` completes all
three rounds and then produces the final ranking. -/
theorem C7_three_sequential_rounds_then_ranking_witness :
    (∃ g1 p1 g2 p2 g3 p3 ranking,
      do_round 1 gW (rngsW 1) stdinW 0 = some (g1, p1) ∧
      do_round 1 g1 (rngsW 2) stdinW p1 = some (g2, p2) ∧
      do_round 1 g2 (rngsW 3) stdinW p2 = some (g3, p3) ∧
      0 ≤ p1 ∧ p1 ≤ p2 ∧ p2 ≤ p3 ∧
      show_final_scores g3 = some ranking ∧
      start 1 gW rngsW stdinW 0 = some (ranking, p3)) ∧
    (∀ (gr : Game) (rng : RoundRng) (q : Nat) (res : Game × Nat),
      do_round 1 gr rng stdinW q = some res →
      ∃ pairs gq posq answers ga posa,
        generate_player_pairs rng.order = some pairs ∧
        pendQuestionsGo pairs stdinW gr.player_ids gr (q + 1) =
          some (gq, posq) ∧
        input_answers gq stdinW (posq + 1) = some (answers, ga, posa) ∧
        do_guesses 1 rng.guessOrders stdinW answers 0 ga posa = some res ∧
        q + 1 ≤ posq ∧ posq + 1 ≤ posa ∧ posa ≤ res.2) :=
  C7_three_sequential_rounds_then_ranking 1 gW rngsW stdinW 0 (by decide)
